import Mathlib

/-!
Verification of the time-series encoding test server
(`src/encoding-time-series-data.ts`, format 2 variant, and
`src/unnamed/part_000`, format 1 variant).

Modelling conventions of the shallow embedding:

* JavaScript numbers in the generator are modelled as exact rationals `ℚ`.
  `Math.random()` draws are modelled as an input stream `rand : ℕ → ℚ`;
  a valid stream has every draw in `[0, 1)`.  Draw number `0` is the
  initialiser `let randomValue = Math.random()`, and loop iteration `i`
  consumes draw number `i + 1`.
* `Math.round` on an exact rational is "closest integer, ties toward `+∞`",
  i.e. `Int.floor (x + 1/2)` (ECMA-262 `Math.round`).
* `new Array(pointCount)` raises `RangeError: Invalid array length` when
  `pointCount` is negative, so `generatePoints` is embedded as a fallible
  function on `ℤ` returning `Except String (List Point)`.  The engine's
  `2^32 - 1` array-length cap is a resource limit (like out-of-memory) and is
  outside the model.
* Timestamps are epoch milliseconds as `ℕ`; `new Date('2024-01-01').getTime()`
  is `1704067200000`.
-/

/-- The `Point` interface of the sources: an epoch-millisecond timestamp and a
numeric value (exact-rational model of the JS double). -/
structure Point where
  time : ℕ
  value : ℚ
deriving DecidableEq, Repr

instance : Inhabited Point := ⟨⟨0, 0⟩⟩

/-- `new Date('2024-01-01').getTime()` : epoch milliseconds of
2024-01-01T00:00:00Z. -/
def basetime : ℕ := 1704067200000

/-- `const millisecondsPerHour = 1000 * 60 * 60`. -/
def millisecondsPerHour : ℕ := 1000 * 60 * 60

/-- ECMA-262 `Math.round` on an exact rational: the closest integer, with
ties rounding toward positive infinity, i.e. `⌊x + 1/2⌋`. -/
def jsRound (x : ℚ) : ℤ := Int.floor (x + 1 / 2)

/-- The body of the `for (let i = 0; i < pointCount; i++)` loop of
`generatePoints`, recursing on the number of remaining iterations.
`drawIndex` numbers the `Math.random()` calls, `randomValue` and `time` are
the mutable loop variables. -/
def generateLoop (power : ℚ) (rand : ℕ → ℚ) :
    ℕ → ℕ → ℚ → ℕ → List Point
  | 0, _, _, _ => []
  | remaining + 1, drawIndex, randomValue, time =>
    let rv := randomValue + (rand drawIndex - 1 / 2)
    { time := time, value := (jsRound (rv * power) : ℚ) / power } ::
      generateLoop power rand remaining (drawIndex + 1) rv
        (time + millisecondsPerHour)

/-- `generatePoints(pointCount, decimalPlaces)` from
`src/encoding-time-series-data.ts` lines 11-26.  `new Array(pointCount)`
raises `RangeError: Invalid array length` on a negative count; otherwise the
loop fills the output array.  `rand` is the stream of `Math.random()` draws. -/
def generatePoints (pointCount : ℤ) (decimalPlaces : ℕ) (rand : ℕ → ℚ) :
    Except String (List Point) :=
  if pointCount < 0 then Except.error "Invalid array length"
  else
    let power : ℚ := 10 ^ decimalPlaces
    Except.ok (generateLoop power rand pointCount.toNat 1 (rand 0) basetime)

/-- The running (pre-round) value of the random walk at point index `i`:
the initial draw plus, for every point emitted so far (the first one
included), a fresh draw minus `1/2`. -/
def runningValue (rand : ℕ → ℚ) (i : ℕ) : ℚ :=
  rand 0 + ∑ k ∈ Finset.range (i + 1), (rand (k + 1) - 1 / 2)

/-- JavaScript `Array.prototype.join('\n')`: empty string on an empty array,
otherwise the elements separated by a newline. -/
def joinLines (lines : List String) : String :=
  match lines with
  | [] => ""
  | l :: rest => rest.foldl (fun acc s => acc ++ "\n" ++ s) l

/-- The `/csv/:pointCount/:decimalPlaces` route handler body of
`src/unnamed/part_000` line 69:
`'time,value\n' + points.map(point => ...).join('\n')`.
The per-point template `point.time.toISOString() + "," + point.value` is kept
abstract in its two field formatters, which the claims never constrain. -/
def csvEncode (timeStr : ℕ → String) (valueStr : ℚ → String)
    (points : List Point) : String :=
  "time,value\n" ++
    joinLines (points.map (fun point => timeStr point.time ++ "," ++ valueStr point.value))

namespace Binary

/-!
The binary encoders.  At the encoder boundary every JS number is a 64-bit
IEEE-754 double; a double is modelled by its 64-bit bit pattern (a natural
number below `2 ^ 64`), since `Buffer.writeDoubleBE` writes exactly those
eight bytes, most significant first, and equality of bit patterns is equality
of the stored doubles.  A `Buffer` from `Buffer.allocUnsafe` has a fixed byte
length and initially uninitialised cells, modelled as `none`; writing a byte
makes the cell `some`.
-/

/-- The `Point` interface as the binary encoders consume it: the timestamp
double (`time.getTime()` encoded as a double) and the value double, each as
its 64-bit IEEE-754 bit pattern. -/
structure Point where
  time : ℕ
  value : ℕ
deriving DecidableEq, Repr

/-- A Node `Buffer`: a fixed allocation size and the per-offset cell
contents, `none` for a never-written (uninitialised) cell. -/
structure Buffer where
  size : ℕ
  data : ℕ → Option ℕ

/-- `Buffer.allocUnsafe(size)`: a buffer of `size` bytes, none of them
initialised. -/
def allocUnsafe (size : ℕ) : Buffer :=
  { size := size, data := fun _ => none }

/-- Write one byte (the low 8 bits of `v`) at offset `pos`. -/
def writeByte (b : Buffer) (pos v : ℕ) : Buffer :=
  { size := b.size,
    data := fun j => if j = pos then some (v % 256) else b.data j }

/-- `buffer.writeDoubleBE(v, off)`: the eight bytes of the 64-bit pattern
`v`, most significant byte first, at offsets `off .. off + 7`. -/
def writeDoubleBE (b : Buffer) (v off : ℕ) : Buffer :=
  writeByte (writeByte (writeByte (writeByte (writeByte (writeByte (writeByte
    (writeByte b off (v / 256 ^ 7))
      (off + 1) (v / 256 ^ 6))
      (off + 2) (v / 256 ^ 5))
      (off + 3) (v / 256 ^ 4))
      (off + 4) (v / 256 ^ 3))
      (off + 5) (v / 256 ^ 2))
      (off + 6) (v / 256))
      (off + 7) v

/-- `buffer.readDoubleBE(off)`: reassemble the big-endian 64-bit pattern
from the eight bytes at `off .. off + 7`, `none` if any of them was never
written. -/
def readDoubleBE (b : Buffer) (off : ℕ) : Option ℕ := do
  let b0 ← b.data off
  let b1 ← b.data (off + 1)
  let b2 ← b.data (off + 2)
  let b3 ← b.data (off + 3)
  let b4 ← b.data (off + 4)
  let b5 ← b.data (off + 5)
  let b6 ← b.data (off + 6)
  let b7 ← b.data (off + 7)
  pure (((((((b0 * 256 + b1) * 256 + b2) * 256 + b3) * 256 + b4) * 256 + b5)
    * 256 + b6) * 256 + b7)

/-- The byte an observer who dumps the buffer reads at offset `j`: the
written byte, or the allocation garbage `g j` for an uninitialised cell. -/
def readByteD (g : ℕ → ℕ) (b : Buffer) (j : ℕ) : ℕ :=
  (b.data j).getD (g j)

/-- The loop body of `encodeBinaryPairs`: iteration `i` writes the timestamp
double at `i * 16` and the value double at `i * 16 + 8`. -/
def pairsStep (points : List Binary.Point) (buffer : Buffer) (i : ℕ) : Buffer :=
  writeDoubleBE
    (writeDoubleBE buffer (points.getD i ⟨0, 0⟩).time (i * 16))
    (points.getD i ⟨0, 0⟩).value (i * 16 + 8)

/-- `encodeBinaryPairs(points)` from `src/encoding-time-series-data.ts`
lines 28-35: allocate `points.length * 16` bytes and interleave
time,value,time,value,… -/
def encodeBinaryPairs (points : List Binary.Point) : Buffer :=
  (List.range points.length).foldl (pairsStep points)
    (allocUnsafe (points.length * 16))

/-- The loop body of `encodeBinarySets`: iteration `i` writes the timestamp
double at `i * 8` and the value double at `i * 8 + secondBlock`. -/
def setsStep (points : List Binary.Point) (secondBlock : ℕ)
    (buffer : Buffer) (i : ℕ) : Buffer :=
  writeDoubleBE
    (writeDoubleBE buffer (points.getD i ⟨0, 0⟩).time (i * 8))
    (points.getD i ⟨0, 0⟩).value (i * 8 + secondBlock)

/-- `encodeBinarySets(points)` from `src/encoding-time-series-data.ts`
lines 37-45: allocate `points.length * 16` bytes, all timestamps first,
then all values, with `secondBlock = points.length * 8`. -/
def encodeBinarySets (points : List Binary.Point) : Buffer :=
  (List.range points.length).foldl (setsStep points (points.length * 8))
    (allocUnsafe (points.length * 16))

end Binary

namespace F1

/-!
The format 1 variant, `src/unnamed/part_000`: its own translation of
`generatePoints`, `encodeBinaryPairs` and `encodeBinarySets` (lines 13-47),
over the same data model and the same Node `Buffer` primitives.
-/

/-- `generatePoints` loop of `src/unnamed/part_000` lines 19-26. -/
def generateLoop (power : ℚ) (rand : ℕ → ℚ) :
    ℕ → ℕ → ℚ → ℕ → List Point
  | 0, _, _, _ => []
  | remaining + 1, drawIndex, randomValue, time =>
    let rv := randomValue + (rand drawIndex - 1 / 2)
    { time := time, value := (jsRound (rv * power) : ℚ) / power } ::
      F1.generateLoop power rand remaining (drawIndex + 1) rv
        (time + millisecondsPerHour)

/-- `generatePoints(pointCount, decimalPlaces)` from `src/unnamed/part_000`
lines 13-28. -/
def generatePoints (pointCount : ℤ) (decimalPlaces : ℕ) (rand : ℕ → ℚ) :
    Except String (List Point) :=
  if pointCount < 0 then Except.error "Invalid array length"
  else
    let power : ℚ := 10 ^ decimalPlaces
    Except.ok (F1.generateLoop power rand pointCount.toNat 1 (rand 0) basetime)

/-- Loop body of `encodeBinaryPairs` from `src/unnamed/part_000` lines 32-35. -/
def pairsStep (points : List Binary.Point) (buffer : Binary.Buffer) (i : ℕ) :
    Binary.Buffer :=
  Binary.writeDoubleBE
    (Binary.writeDoubleBE buffer (points.getD i ⟨0, 0⟩).time (i * 16))
    (points.getD i ⟨0, 0⟩).value (i * 16 + 8)

/-- `encodeBinaryPairs(points)` from `src/unnamed/part_000` lines 30-37. -/
def encodeBinaryPairs (points : List Binary.Point) : Binary.Buffer :=
  (List.range points.length).foldl (F1.pairsStep points)
    (Binary.allocUnsafe (points.length * 16))

/-- Loop body of `encodeBinarySets` from `src/unnamed/part_000` lines 42-45. -/
def setsStep (points : List Binary.Point) (secondBlock : ℕ)
    (buffer : Binary.Buffer) (i : ℕ) : Binary.Buffer :=
  Binary.writeDoubleBE
    (Binary.writeDoubleBE buffer (points.getD i ⟨0, 0⟩).time (i * 8))
    (points.getD i ⟨0, 0⟩).value (i * 8 + secondBlock)

/-- `encodeBinarySets(points)` from `src/unnamed/part_000` lines 39-47. -/
def encodeBinarySets (points : List Binary.Point) : Binary.Buffer :=
  (List.range points.length).foldl (F1.setsStep points (points.length * 8))
    (Binary.allocUnsafe (points.length * 16))

end F1

/-- Round-half-away-from-zero on an exact rational, as the specification
words it: a tie at `.5` moves away from zero, so `-2.5` rounds to `-3`. -/
def roundHalfAwayFromZero (x : ℚ) : ℤ :=
  if x < 0 then -(Int.floor (-x + 1 / 2)) else Int.floor (x + 1 / 2)

/-- Closed form of the generator loop: iteration `i` emits the timestamp
`time + i` hours and the rounded running value. -/
lemma generateLoop_eq (power : ℚ) (rand : ℕ → ℚ) (m : ℕ) :
    ∀ (drawIndex : ℕ) (randomValue : ℚ) (time : ℕ),
      generateLoop power rand m drawIndex randomValue time =
        (List.range m).map (fun i =>
          { time := time + i * millisecondsPerHour,
            value := (jsRound ((randomValue +
                ∑ k ∈ Finset.range (i + 1),
                  (rand (drawIndex + k) - 1 / 2)) * power) : ℚ) / power }) := by
  induction m with
  | zero => intro d rv t; simp [generateLoop]
  | succ m ih =>
    intro d rv t
    rw [List.range_succ_eq_map]
    simp only [generateLoop, List.map_cons, List.map_map]
    congr 1
    · simp
    · rw [ih]
      apply List.map_congr_left
      intro i _
      simp only [Function.comp_apply, Nat.succ_eq_add_one, Point.mk.injEq]
      refine ⟨by ring, ?_⟩
      have hidx : ∀ k : ℕ, d + (k + 1) = d + 1 + k := fun k => by omega
      have harg : rv + (rand d - 1 / 2) +
          ∑ k ∈ Finset.range (i + 1), (rand (d + 1 + k) - 1 / 2) =
          rv + ∑ k ∈ Finset.range (i + 1 + 1), (rand (d + k) - 1 / 2) := by
        have hsum : ∑ k ∈ Finset.range (i + 1), (rand (d + (k + 1)) - 1 / 2) =
            ∑ k ∈ Finset.range (i + 1), (rand (d + 1 + k) - 1 / 2) :=
          Finset.sum_congr rfl (fun k _ => by rw [hidx k])
        conv_rhs => rw [Finset.sum_range_succ']
        rw [hsum]
        simp only [Nat.add_zero]
        ring
      rw [harg]

/-- `generatePoints` on a non-negative count, in closed form. -/
lemma generatePoints_natCast (n : ℕ) (d : ℕ) (rand : ℕ → ℚ) :
    generatePoints (n : ℤ) d rand =
      Except.ok ((List.range n).map (fun i =>
        { time := basetime + i * millisecondsPerHour,
          value := (jsRound (runningValue rand i * 10 ^ d) : ℚ) / 10 ^ d })) := by
  have h : ¬ ((n : ℤ) < 0) := by exact_mod_cast Int.not_lt.mpr (Int.natCast_nonneg n)
  simp only [generatePoints, h, if_false, Int.toNat_natCast]
  rw [generateLoop_eq]
  congr 1
  apply List.map_congr_left
  intro i _
  have hs : (∑ k ∈ Finset.range (i + 1), (rand (1 + k) - 1 / 2)) =
      ∑ k ∈ Finset.range (i + 1), (rand (k + 1) - 1 / 2) :=
    Finset.sum_congr rfl (fun k _ => by rw [Nat.add_comm 1 k])
  rw [runningValue, ← hs]

/-- Pointwise effect of `writeByte`. -/
lemma Binary.writeByte_data (b : Buffer) (pos v j : ℕ) :
    (writeByte b pos v).data j = if j = pos then some (v % 256) else b.data j := rfl

/-- `writeByte` never changes the allocation size. -/
lemma Binary.writeByte_size (b : Buffer) (pos v : ℕ) :
    (writeByte b pos v).size = b.size := rfl

/-- `writeDoubleBE` never changes the allocation size. -/
lemma Binary.writeDoubleBE_size (b : Buffer) (v off : ℕ) :
    (writeDoubleBE b v off).size = b.size := by
  simp [writeDoubleBE, writeByte_size]

/-- One pairs-loop iteration never changes the allocation size. -/
lemma Binary.pairsStep_size (points : List Binary.Point) (b : Buffer) (i : ℕ) :
    (pairsStep points b i).size = b.size := by
  simp [pairsStep, writeDoubleBE_size]

/-- One sets-loop iteration never changes the allocation size. -/
lemma Binary.setsStep_size (points : List Binary.Point) (sb : ℕ) (b : Buffer)
    (i : ℕ) :
    (setsStep points sb b i).size = b.size := by
  simp [setsStep, writeDoubleBE_size]

/-- Byte `k` of a big-endian double write, for `k < 8`. -/
lemma Binary.writeDoubleBE_data_at {b : Buffer} {v off : ℕ} (k : ℕ) (hk : k < 8) :
    (writeDoubleBE b v off).data (off + k) = some (v / 256 ^ (7 - k) % 256) := by
  interval_cases k <;> simp [writeDoubleBE, writeByte_data]

/-- A big-endian double write leaves offsets outside `[off, off + 8)` alone. -/
lemma Binary.writeDoubleBE_data_untouched {b : Buffer} {v off j : ℕ}
    (h : j < off ∨ off + 8 ≤ j) :
    (writeDoubleBE b v off).data j = b.data j := by
  have h0 : j ≠ off := by omega
  have h1 : j ≠ off + 1 := by omega
  have h2 : j ≠ off + 2 := by omega
  have h3 : j ≠ off + 3 := by omega
  have h4 : j ≠ off + 4 := by omega
  have h5 : j ≠ off + 5 := by omega
  have h6 : j ≠ off + 6 := by omega
  have h7 : j ≠ off + 7 := by omega
  simp [writeDoubleBE, writeByte_data, h0, h1, h2, h3, h4, h5, h6, h7]

/-- Reading eight big-endian bytes of a 64-bit pattern recovers the pattern. -/
lemma Binary.readDoubleBE_of_bytes {b : Buffer} {off v : ℕ}
    (h : ∀ k, k < 8 → b.data (off + k) = some (v / 256 ^ (7 - k) % 256))
    (hv : v < 2 ^ 64) :
    readDoubleBE b off = some v := by
  have h0 : b.data off = some (v / 256 ^ 7 % 256) := by simpa using h 0 (by norm_num)
  have h1 : b.data (off + 1) = some (v / 256 ^ 6 % 256) := by
    simpa using h 1 (by norm_num)
  have h2 : b.data (off + 2) = some (v / 256 ^ 5 % 256) := by
    simpa using h 2 (by norm_num)
  have h3 : b.data (off + 3) = some (v / 256 ^ 4 % 256) := by
    simpa using h 3 (by norm_num)
  have h4 : b.data (off + 4) = some (v / 256 ^ 3 % 256) := by
    simpa using h 4 (by norm_num)
  have h5 : b.data (off + 5) = some (v / 256 ^ 2 % 256) := by
    simpa using h 5 (by norm_num)
  have h6 : b.data (off + 6) = some (v / 256 % 256) := by simpa using h 6 (by norm_num)
  have h7 : b.data (off + 7) = some (v % 256) := by simpa using h 7 (by norm_num)
  rw [readDoubleBE, h0, h1, h2, h3, h4, h5, h6, h7]
  simp only [Option.bind_eq_bind, Option.some_bind, Option.pure_def]
  congr 1
  omega

/-- The pairs loop preserves the allocation size. -/
lemma Binary.pairsLoop_size (points : List Binary.Point) (b0 : Buffer) (l : List ℕ) :
    (l.foldl (pairsStep points) b0).size = b0.size := by
  induction l generalizing b0 with
  | nil => rfl
  | cons x xs ih => rw [List.foldl_cons, ih, pairsStep_size]

/-- The sets loop preserves the allocation size. -/
lemma Binary.setsLoop_size (points : List Binary.Point) (sb : ℕ) (b0 : Buffer)
    (l : List ℕ) :
    (l.foldl (setsStep points sb) b0).size = b0.size := by
  induction l generalizing b0 with
  | nil => rfl
  | cons x xs ih => rw [List.foldl_cons, ih, setsStep_size]

/-- The pairs loop leaves offsets at or beyond `16 * m` alone. -/
lemma Binary.pairsLoop_frame (points : List Binary.Point) (b0 : Buffer) :
    ∀ m j, 16 * m ≤ j →
      ((List.range m).foldl (pairsStep points) b0).data j = b0.data j := by
  intro m
  induction m with
  | zero => intro j _; rfl
  | succ m ih =>
    intro j hj
    rw [List.range_succ, List.foldl_append, List.foldl_cons, List.foldl_nil]
    simp only [pairsStep]
    rw [writeDoubleBE_data_untouched, writeDoubleBE_data_untouched, ih j (by omega)] <;>
      omega

/-- After `m` iterations of the pairs loop, byte `k` of point `i`'s timestamp
double sits at offset `i * 16 + k`. -/
lemma Binary.pairsLoop_time (points : List Binary.Point) (b0 : Buffer) :
    ∀ m i k, i < m → k < 8 →
      ((List.range m).foldl (pairsStep points) b0).data (i * 16 + k) =
        some ((points.getD i ⟨0, 0⟩).time / 256 ^ (7 - k) % 256) := by
  intro m
  induction m with
  | zero => intro i k hi _; omega
  | succ m ih =>
    intro i k hi hk
    rw [List.range_succ, List.foldl_append, List.foldl_cons, List.foldl_nil]
    simp only [pairsStep]
    rcases Nat.lt_or_ge i m with h | h
    · rw [writeDoubleBE_data_untouched, writeDoubleBE_data_untouched, ih i k h hk] <;>
        omega
    · have him : i = m := by omega
      subst him
      rw [writeDoubleBE_data_untouched]
      · exact writeDoubleBE_data_at k hk
      · omega

/-- After `m` iterations of the pairs loop, byte `k` of point `i`'s value
double sits at offset `i * 16 + 8 + k`. -/
lemma Binary.pairsLoop_value (points : List Binary.Point) (b0 : Buffer) :
    ∀ m i k, i < m → k < 8 →
      ((List.range m).foldl (pairsStep points) b0).data (i * 16 + 8 + k) =
        some ((points.getD i ⟨0, 0⟩).value / 256 ^ (7 - k) % 256) := by
  intro m
  induction m with
  | zero => intro i k hi _; omega
  | succ m ih =>
    intro i k hi hk
    rw [List.range_succ, List.foldl_append, List.foldl_cons, List.foldl_nil]
    simp only [pairsStep]
    rcases Nat.lt_or_ge i m with h | h
    · rw [writeDoubleBE_data_untouched, writeDoubleBE_data_untouched, ih i k h hk] <;>
        omega
    · have him : i = m := by omega
      subst him
      exact writeDoubleBE_data_at k hk

/-- The sets loop leaves offsets outside its time block `[0, 8m)` and value
block `[sb, sb + 8m)` alone. -/
lemma Binary.setsLoop_frame (points : List Binary.Point) (sb : ℕ) (b0 : Buffer) :
    ∀ m j, 8 * m ≤ j → (j < sb ∨ sb + 8 * m ≤ j) →
      ((List.range m).foldl (setsStep points sb) b0).data j = b0.data j := by
  intro m
  induction m with
  | zero => intro j _ _; rfl
  | succ m ih =>
    intro j hj1 hj2
    rw [List.range_succ, List.foldl_append, List.foldl_cons, List.foldl_nil]
    simp only [setsStep]
    rw [writeDoubleBE_data_untouched, writeDoubleBE_data_untouched,
      ih j (by omega) (by omega)] <;> omega

/-- After `m` iterations of the sets loop with second block at `sb ≥ 8m`,
byte `k` of point `i`'s timestamp double sits at offset `i * 8 + k`. -/
lemma Binary.setsLoop_time (points : List Binary.Point) (sb : ℕ) (b0 : Buffer) :
    ∀ m i k, i < m → k < 8 → 8 * m ≤ sb →
      ((List.range m).foldl (setsStep points sb) b0).data (i * 8 + k) =
        some ((points.getD i ⟨0, 0⟩).time / 256 ^ (7 - k) % 256) := by
  intro m
  induction m with
  | zero => intro i k hi _ _; omega
  | succ m ih =>
    intro i k hi hk hsb
    rw [List.range_succ, List.foldl_append, List.foldl_cons, List.foldl_nil]
    simp only [setsStep]
    rcases Nat.lt_or_ge i m with h | h
    · rw [writeDoubleBE_data_untouched, writeDoubleBE_data_untouched,
        ih i k h hk (by omega)] <;> omega
    · have him : i = m := by omega
      subst him
      rw [writeDoubleBE_data_untouched]
      · exact writeDoubleBE_data_at k hk
      · omega

/-- After `m` iterations of the sets loop with second block at `sb ≥ 8m`,
byte `k` of point `i`'s value double sits at offset `i * 8 + sb + k`. -/
lemma Binary.setsLoop_value (points : List Binary.Point) (sb : ℕ) (b0 : Buffer) :
    ∀ m i k, i < m → k < 8 → 8 * m ≤ sb →
      ((List.range m).foldl (setsStep points sb) b0).data (i * 8 + sb + k) =
        some ((points.getD i ⟨0, 0⟩).value / 256 ^ (7 - k) % 256) := by
  intro m
  induction m with
  | zero => intro i k hi _ _; omega
  | succ m ih =>
    intro i k hi hk hsb
    rw [List.range_succ, List.foldl_append, List.foldl_cons, List.foldl_nil]
    simp only [setsStep]
    rcases Nat.lt_or_ge i m with h | h
    · rw [writeDoubleBE_data_untouched, writeDoubleBE_data_untouched,
        ih i k h hk (by omega)] <;> omega
    · have him : i = m := by omega
      subst him
      exact writeDoubleBE_data_at k hk

/-- `getD` of a mapped range evaluates the function. -/
lemma getD_map_range {α : Type} (f : ℕ → α) (n i : ℕ) (h : i < n) (d0 : α) :
    ((List.range n).map f).getD i d0 = f i := by
  rw [List.getD_eq_getElem?_getD, List.getElem?_map, List.getElem?_range h]
  rfl

/-- The two source variants' generator loops agree draw for draw. -/
lemma F1_generateLoop_eq (power : ℚ) (rand : ℕ → ℚ) :
    ∀ (m drawIndex : ℕ) (randomValue : ℚ) (time : ℕ),
      F1.generateLoop power rand m drawIndex randomValue time =
        generateLoop power rand m drawIndex randomValue time := by
  intro m
  induction m with
  | zero => intro d rv t; rfl
  | succ m ih =>
    intro d rv t
    simp only [F1.generateLoop, generateLoop]
    rw [ih]

/-- A common prefix pulls out of the JS `join('\n')` fold. -/
lemma foldl_join_pull (x : String) :
    ∀ (l : List String) (y : String),
      l.foldl (fun acc s => acc ++ "\n" ++ s) (x ++ y) =
        x ++ l.foldl (fun acc s => acc ++ "\n" ++ s) y := by
  intro l
  induction l with
  | nil => intro y; rfl
  | cons z zs ih =>
    intro y
    rw [List.foldl_cons, List.foldl_cons]
    have hassoc : x ++ y ++ "\n" ++ z = x ++ (y ++ "\n" ++ z) := by
      rw [String.append_assoc, String.append_assoc, String.append_assoc]
    rw [hassoc, ih]

/-- Every byte below `16 n` of the pairs encoding has been written. -/
lemma pairs_data_isSome (pts : List Binary.Point) (j : ℕ)
    (hj : j < 16 * pts.length) :
    ((Binary.encodeBinaryPairs pts).data j).isSome = true := by
  simp only [Binary.encodeBinaryPairs]
  rcases Nat.lt_or_ge (j % 16) 8 with h | h
  · have hj2 : j = j / 16 * 16 + j % 16 := by omega
    rw [hj2, Binary.pairsLoop_time pts _ pts.length (j / 16) (j % 16) (by omega) h]
    rfl
  · have hj2 : j = j / 16 * 16 + 8 + (j % 16 - 8) := by omega
    rw [hj2, Binary.pairsLoop_value pts _ pts.length (j / 16) (j % 16 - 8) (by omega)
      (by omega)]
    rfl

/-- Every byte below `16 n` of the sets encoding has been written. -/
lemma sets_data_isSome (pts : List Binary.Point) (j : ℕ)
    (hj : j < 16 * pts.length) :
    ((Binary.encodeBinarySets pts).data j).isSome = true := by
  simp only [Binary.encodeBinarySets]
  rcases Nat.lt_or_ge j (8 * pts.length) with h | h
  · have hj2 : j = j / 8 * 8 + j % 8 := by omega
    rw [hj2, Binary.setsLoop_time pts _ _ pts.length (j / 8) (j % 8) (by omega)
      (by omega) (by omega)]
    rfl
  · have hj2 : j = (j - 8 * pts.length) / 8 * 8 + pts.length * 8 +
      (j - 8 * pts.length) % 8 := by omega
    rw [hj2, Binary.setsLoop_value pts _ _ pts.length ((j - 8 * pts.length) / 8)
      ((j - 8 * pts.length) % 8) (by omega) (by omega) (by omega)]
    rfl

/-- C1: for every non-negative `pointCount = n` and `decimalPlaces`,
`generatePoints` returns without error exactly `n` points, point `i`'s
timestamp is exactly `basetime + i` hours (so timestamps are strictly
increasing and spaced one hour apart), and the timestamps are given by that
formula whatever the random stream supplies. -/
theorem generatePoints_count_times (n d : ℕ) (rand : ℕ → ℚ) (pts : List Point)
    (h : generatePoints (n : ℤ) d rand = Except.ok pts) :
    pts.length = n ∧
    (∀ i, i < n → (pts.getD i default).time = basetime + i * millisecondsPerHour) ∧
    (∀ i j, i < j → j < n →
      (pts.getD i default).time < (pts.getD j default).time) := by
  rw [generatePoints_natCast] at h
  injection h with h
  subst h
  refine ⟨by simp, ?_, ?_⟩
  · intro i hi
    rw [getD_map_range _ _ _ hi]
  · intro i j hij hj
    rw [getD_map_range _ _ _ (by omega), getD_map_range _ _ _ hj]
    simp only [millisecondsPerHour]
    omega

/-- Witness for C1 at `pointCount = 2`, `decimalPlaces = 0` and the all-zero
random stream. -/
theorem generatePoints_count_times_witness :
    (((List.range 2).map (fun i =>
      ({ time := basetime + i * millisecondsPerHour,
         value := (jsRound (runningValue (fun _ => (0 : ℚ)) i * 10 ^ 0) : ℚ) /
           10 ^ 0 } : Point))).length = 2) ∧
    (∀ i, i < 2 →
      ((((List.range 2).map (fun i =>
        ({ time := basetime + i * millisecondsPerHour,
           value := (jsRound (runningValue (fun _ => (0 : ℚ)) i * 10 ^ 0) : ℚ) /
             10 ^ 0 } : Point))).getD i default).time =
        basetime + i * millisecondsPerHour)) ∧
    (∀ i j, i < j → j < 2 →
      ((((List.range 2).map (fun i =>
        ({ time := basetime + i * millisecondsPerHour,
           value := (jsRound (runningValue (fun _ => (0 : ℚ)) i * 10 ^ 0) : ℚ) /
             10 ^ 0 } : Point))).getD i default).time <
       (((List.range 2).map (fun i =>
        ({ time := basetime + i * millisecondsPerHour,
           value := (jsRound (runningValue (fun _ => (0 : ℚ)) i * 10 ^ 0) : ℚ) /
             10 ^ 0 } : Point))).getD j default).time)) :=
  generatePoints_count_times 2 0 (fun _ => 0) _ (generatePoints_natCast 2 0 (fun _ => 0))

/-- C3 counterexample: with the valid draws `0` and `1/4` and
`decimalPlaces = 1`, the running value is `-1/4`, so the scaled value is the
negative tie `-5/2`.  The code (JS `Math.round`) emits `-2/10 = -1/5`,
while round-half-away-from-zero would give `-3/10`: the claimed rounding
rule contradicts the code on negative ties. -/
theorem round_half_away_counterexample :
    ((0 : ℚ) ≤ 0 ∧ (0 : ℚ) < 1) ∧ ((0 : ℚ) ≤ 1 / 4 ∧ (1 / 4 : ℚ) < 1) ∧
    generatePoints 1 1 (fun k => if k = 1 then (1 / 4 : ℚ) else 0) =
      Except.ok [{ time := basetime, value := -1 / 5 }] ∧
    (roundHalfAwayFromZero
      (runningValue (fun k => if k = 1 then (1 / 4 : ℚ) else 0) 0 * 10 ^ 1) : ℚ) /
      10 ^ 1 = -3 / 10 ∧
    (-1 / 5 : ℚ) ≠ -3 / 10 := by
  refine ⟨⟨by norm_num, by norm_num⟩, ⟨by norm_num, by norm_num⟩, ?_, ?_, by norm_num⟩
  · simp only [generatePoints, generateLoop, jsRound]
    norm_num
  · simp only [roundHalfAwayFromZero, runningValue, Finset.sum_range_one]
    norm_num

/-- C3 amended: each emitted value is the running value scaled by
`10 ^ decimalPlaces`, rounded with JS `Math.round` semantics — the closest
integer with ties toward positive infinity, `⌊x + 1/2⌋` — then divided by
`10 ^ decimalPlaces`.  (Round-half-away-from-zero agrees except on negative
ties.) -/
theorem generatePoints_value_rounding (n d : ℕ) (rand : ℕ → ℚ) (i : ℕ)
    (hi : i < n) :
    ((((generatePoints (n : ℤ) d rand).toOption.getD []).getD i default)).value =
      (Int.floor (runningValue rand i * 10 ^ d + 1 / 2) : ℚ) / 10 ^ d := by
  rw [generatePoints_natCast]
  simp only [Except.toOption, Option.getD_some]
  rw [getD_map_range _ _ _ hi]
  simp only [jsRound]

/-- Witness for the amended C3 at `pointCount = 1`, `decimalPlaces = 0` and
the all-zero random stream. -/
theorem generatePoints_value_rounding_witness :
    ((((generatePoints ((1 : ℕ) : ℤ) 0 (fun _ => (0 : ℚ))).toOption.getD []).getD
        0 default)).value =
      (Int.floor (runningValue (fun _ => (0 : ℚ)) 0 * 10 ^ 0 + 1 / 2) : ℚ) / 10 ^ 0 :=
  generatePoints_value_rounding 1 0 (fun _ => 0) 0 (by decide)

/-- C4 counterexample: a negative `pointCount` does not yield an empty
sequence — `new Array(-1)` raises `RangeError: Invalid array length`. -/
theorem generatePoints_negative_counterexample :
    generatePoints (-1) 0 (fun _ => 0) = Except.error "Invalid array length" := by
  norm_num [generatePoints]

/-- C4 amended: `pointCount = 0` yields the empty sequence without error,
while a negative `pointCount` raises `RangeError: Invalid array length`
(which the digit-only route patterns never trigger). -/
theorem generatePoints_nonpositive (pointCount : ℤ) (d : ℕ) (rand : ℕ → ℚ)
    (h : pointCount ≤ 0) :
    generatePoints pointCount d rand =
      if pointCount = 0 then Except.ok []
      else Except.error "Invalid array length" := by
  rcases lt_or_eq_of_le h with hlt | heq
  · rw [if_neg (by omega)]
    rw [generatePoints, if_pos hlt]
  · subst heq
    rw [if_pos rfl]
    rfl

/-- Witness for the amended C4 at `pointCount = -1`. -/
theorem generatePoints_nonpositive_witness :
    generatePoints (-1) 5 (fun _ => (1 / 2 : ℚ)) =
      if (-1 : ℤ) = 0 then Except.ok []
      else Except.error "Invalid array length" :=
  generatePoints_nonpositive (-1) 5 (fun _ => (1 / 2 : ℚ)) (by decide)

/-- C5 counterexample: the `/csv` handler prepends `'time,value\n'` before
joining, so for zero points the response is the header *with* a trailing
newline, not the bare header `"time,value"`. -/
theorem csv_empty_counterexample :
    csvEncode (fun _ => "") (fun _ => "") [] = "time,value\n" ∧
    "time,value\n" ≠ "time,value" := by
  constructor
  · rfl
  · decide

/-- C5 amended: for zero points the CSV body is exactly `"time,value\n"`
(header plus a dangling newline); for one or more points it is exactly the
header line and the point lines joined by `'\n'`, with nothing appended
after the last line. -/
theorem csv_layout (timeStr : ℕ → String) (valueStr : ℚ → String)
    (p : Point) (ps : List Point) :
    csvEncode timeStr valueStr [] = "time,value\n" ∧
    csvEncode timeStr valueStr (p :: ps) =
      joinLines ("time,value" ::
        (p :: ps).map (fun q => timeStr q.time ++ "," ++ valueStr q.value)) := by
  constructor
  · rfl
  · simp only [csvEncode, joinLines, List.map_cons, List.foldl_cons]
    have hstr : "time,value\n" = "time,value" ++ "\n" := rfl
    rw [hstr, ← foldl_join_pull]

/-- C6 counterexample: with valid draws `1/5` (initialiser) and `9/10`
(first loop draw) at `decimalPlaces = 1`, the first emitted value is
`round((1/5 + 9/10 - 1/2) * 10)/10 = 3/5`, not the rounded initial value
`1/5`: the code adds a delta before emitting the *first* point too. -/
theorem first_point_delta_counterexample :
    ((0 : ℚ) ≤ 1 / 5 ∧ (1 / 5 : ℚ) < 1) ∧ ((0 : ℚ) ≤ 9 / 10 ∧ (9 / 10 : ℚ) < 1) ∧
    (((generatePoints 1 1
        (fun k => if k = 0 then (1 / 5 : ℚ) else if k = 1 then 9 / 10 else 0)
      ).toOption.getD []).getD 0 default).value = 3 / 5 ∧
    (jsRound ((fun k => if k = 0 then (1 / 5 : ℚ) else if k = 1 then 9 / 10 else 0) 0
        * 10 ^ 1) : ℚ) / 10 ^ 1 = 1 / 5 ∧
    (3 / 5 : ℚ) ≠ 1 / 5 := by
  refine ⟨⟨by norm_num, by norm_num⟩, ⟨by norm_num, by norm_num⟩, ?_, ?_, by norm_num⟩
  · simp only [generatePoints, generateLoop, jsRound, Except.toOption, Option.getD_some]
    norm_num
  · simp only [jsRound]
    norm_num

/-- C6 amended: the running value starts at the initialising draw, and for
*every* emitted point — the first one included — a fresh draw minus `1/2` is
added to the running value before rounding and emitting, while the pre-round
running value carries forward unrounded: point `i`'s value is the rounding
of `rand 0 + ∑ k ≤ i, (rand (k+1) - 1/2)` scaled by `10 ^ decimalPlaces`. -/
theorem generatePoints_value_evolution (n d : ℕ) (rand : ℕ → ℚ) :
    generatePoints (n : ℤ) d rand =
      Except.ok ((List.range n).map (fun i =>
        { time := basetime + i * millisecondsPerHour,
          value := (jsRound ((rand 0 +
            ∑ k ∈ Finset.range (i + 1), (rand (k + 1) - 1 / 2)) * 10 ^ d) : ℚ) /
            10 ^ d })) :=
  generatePoints_natCast n d rand

/-- C7: both encoders allocate and return a buffer of exactly `16 n` bytes
for `n` points. -/
theorem encode_length (pts : List Binary.Point) :
    (Binary.encodeBinaryPairs pts).size = 16 * pts.length ∧
    (Binary.encodeBinarySets pts).size = 16 * pts.length := by
  constructor
  · simp only [Binary.encodeBinaryPairs]
    rw [Binary.pairsLoop_size]
    simp [Binary.allocUnsafe, Nat.mul_comm]
  · simp only [Binary.encodeBinarySets]
    rw [Binary.setsLoop_size]
    simp [Binary.allocUnsafe, Nat.mul_comm]

/-- C2: decoding the big-endian double at byte offsets `16i` / `16i + 8` of
the pairs encoding, and at `8i` / `8n + 8i` of the sets encoding, recovers
point `i`'s stored timestamp double and value double exactly (bit-pattern
equality), for every `i < n`. -/
theorem binary_roundtrip (pts : List Binary.Point) (i : ℕ) (hi : i < pts.length)
    (hb : ∀ p ∈ pts, p.time < 2 ^ 64 ∧ p.value < 2 ^ 64) :
    Binary.readDoubleBE (Binary.encodeBinaryPairs pts) (i * 16) =
      some ((pts.getD i ⟨0, 0⟩).time) ∧
    Binary.readDoubleBE (Binary.encodeBinaryPairs pts) (i * 16 + 8) =
      some ((pts.getD i ⟨0, 0⟩).value) ∧
    Binary.readDoubleBE (Binary.encodeBinarySets pts) (i * 8) =
      some ((pts.getD i ⟨0, 0⟩).time) ∧
    Binary.readDoubleBE (Binary.encodeBinarySets pts) (pts.length * 8 + i * 8) =
      some ((pts.getD i ⟨0, 0⟩).value) := by
  have hmem : pts.getD i ⟨0, 0⟩ ∈ pts := by
    rw [List.getD_eq_getElem?_getD, List.getElem?_eq_getElem hi, Option.getD_some]
    exact List.getElem_mem hi
  have ht := (hb _ hmem).1
  have hv := (hb _ hmem).2
  refine ⟨?_, ?_, ?_, ?_⟩
  · refine Binary.readDoubleBE_of_bytes (fun k hk => ?_) ht
    simp only [Binary.encodeBinaryPairs]
    exact Binary.pairsLoop_time pts _ pts.length i k hi hk
  · refine Binary.readDoubleBE_of_bytes (fun k hk => ?_) hv
    simp only [Binary.encodeBinaryPairs]
    exact Binary.pairsLoop_value pts _ pts.length i k hi hk
  · refine Binary.readDoubleBE_of_bytes (fun k hk => ?_) ht
    simp only [Binary.encodeBinarySets]
    exact Binary.setsLoop_time pts _ _ pts.length i k hi hk (by omega)
  · refine Binary.readDoubleBE_of_bytes (fun k hk => ?_) hv
    simp only [Binary.encodeBinarySets]
    have hoff : pts.length * 8 + i * 8 + k = i * 8 + pts.length * 8 + k := by omega
    rw [hoff]
    exact Binary.setsLoop_value pts _ _ pts.length i k hi hk (by omega)

/-- Witness for C2 at the one-point sequence with timestamp pattern `1` and
value pattern `2`. -/
theorem binary_roundtrip_witness :
    Binary.readDoubleBE (Binary.encodeBinaryPairs [⟨1, 2⟩]) 0 = some 1 ∧
    Binary.readDoubleBE (Binary.encodeBinaryPairs [⟨1, 2⟩]) 8 = some 2 ∧
    Binary.readDoubleBE (Binary.encodeBinarySets [⟨1, 2⟩]) 0 = some 1 ∧
    Binary.readDoubleBE (Binary.encodeBinarySets [⟨1, 2⟩]) 8 = some 2 :=
  binary_roundtrip [⟨1, 2⟩] 0 (by decide) (by decide)

/-- C8: the encoders are deterministic byte for byte: inside the allocated
`16 n` bytes the observable output does not depend on the garbage that
`Buffer.allocUnsafe` handed over, so two applications to the same point
sequence produce identical bytes. -/
theorem encode_deterministic (pts : List Binary.Point) (g1 g2 : ℕ → ℕ) (j : ℕ)
    (hj : j < 16 * pts.length) :
    Binary.readByteD g1 (Binary.encodeBinaryPairs pts) j =
      Binary.readByteD g2 (Binary.encodeBinaryPairs pts) j ∧
    Binary.readByteD g1 (Binary.encodeBinarySets pts) j =
      Binary.readByteD g2 (Binary.encodeBinarySets pts) j := by
  constructor
  · obtain ⟨x, hx⟩ := Option.isSome_iff_exists.mp (pairs_data_isSome pts j hj)
    simp [Binary.readByteD, hx]
  · obtain ⟨x, hx⟩ := Option.isSome_iff_exists.mp (sets_data_isSome pts j hj)
    simp [Binary.readByteD, hx]

/-- Witness for C8 at a one-point sequence, two distinct garbage fills and
offset `0`. -/
theorem encode_deterministic_witness :
    Binary.readByteD (fun _ => 0) (Binary.encodeBinaryPairs [⟨1, 2⟩]) 0 =
      Binary.readByteD (fun _ => 255) (Binary.encodeBinaryPairs [⟨1, 2⟩]) 0 ∧
    Binary.readByteD (fun _ => 0) (Binary.encodeBinarySets [⟨1, 2⟩]) 0 =
      Binary.readByteD (fun _ => 255) (Binary.encodeBinarySets [⟨1, 2⟩]) 0 :=
  encode_deterministic [⟨1, 2⟩] (fun _ => 0) (fun _ => 255) 0 (by decide)

/-- C10: although the output buffer comes from `Buffer.allocUnsafe`, the
encoding loops write every one of its `16 n` bytes before returning, so no
uninitialised memory is exposed. -/
theorem encode_all_bytes_written (pts : List Binary.Point) (j : ℕ)
    (hj : j < 16 * pts.length) :
    ((Binary.encodeBinaryPairs pts).data j).isSome = true ∧
    ((Binary.encodeBinarySets pts).data j).isSome = true :=
  ⟨pairs_data_isSome pts j hj, sets_data_isSome pts j hj⟩

/-- Witness for C10 at a one-point sequence and offset `5`. -/
theorem encode_all_bytes_written_witness :
    ((Binary.encodeBinaryPairs [⟨1, 2⟩]).data 5).isSome = true ∧
    ((Binary.encodeBinarySets [⟨1, 2⟩]).data 5).isSome = true :=
  encode_all_bytes_written [⟨1, 2⟩] 5 (by decide)

/-- C9: the format 1 (`src/unnamed/part_000`) and format 2
(`src/encoding-time-series-data.ts`) translations of `generatePoints`,
`encodeBinaryPairs` and `encodeBinarySets` are extensionally equal: the same
count, decimal places and random stream give the same point sequence, and
the same point sequence gives identical buffers. -/
theorem variants_equal (pointCount : ℤ) (decimalPlaces : ℕ) (rand : ℕ → ℚ)
    (pts : List Binary.Point) :
    F1.generatePoints pointCount decimalPlaces rand =
      generatePoints pointCount decimalPlaces rand ∧
    F1.encodeBinaryPairs pts = Binary.encodeBinaryPairs pts ∧
    F1.encodeBinarySets pts = Binary.encodeBinarySets pts := by
  refine ⟨?_, ?_, ?_⟩
  · simp only [F1.generatePoints, generatePoints, F1_generateLoop_eq]
  · rfl
  · rfl
